import Mathlib

/-!
# Verification of the Origami journal access-control and entry lifecycle core

Shallow embedding of the journal subsystem of the Origami personal-productivity
application: the content cipher (`utils/encryption.py`), the password guard
(`ui/profile_ui.py`, class `PasswordManager`), the journal session controller
(`ui/journal_ui.py`, class `JournalWidget`) and the entry model
(`database/models.py`, class `JournalEntry`).

Python strings are modelled as lists of Unicode codepoints (`List Nat`),
byte strings as lists of naturals below 256, and wall-clock time as a natural
number of seconds passed explicitly to each operation that reads the clock.
-/

namespace Origami

/-! ## UTF-8 codec

Python's `str.encode('utf-8')` / `bytes.decode('utf-8')`, which the cipher in
`utils/encryption.py` calls on its inputs and outputs.  A codepoint is
encodable iff it is a Unicode scalar value: below `0x110000` and not a
surrogate. -/

/-- A codepoint Python's UTF-8 codec accepts: in range and not a surrogate. -/
def ValidCodepoint (c : Nat) : Prop :=
  c < 0x110000 ∧ ¬ (0xD800 ≤ c ∧ c ≤ 0xDFFF)

instance (c : Nat) : Decidable (ValidCodepoint c) := by
  unfold ValidCodepoint; infer_instance

/-- UTF-8 encoding of one codepoint (1 to 4 bytes). -/
def utf8EncodeChar (c : Nat) : List Nat :=
  if c < 0x80 then [c]
  else if c < 0x800 then [0xC0 + c / 64, 0x80 + c % 64]
  else if c < 0x10000 then
    [0xE0 + c / 4096, 0x80 + (c / 64) % 64, 0x80 + c % 64]
  else
    [0xF0 + c / 262144, 0x80 + (c / 4096) % 64, 0x80 + (c / 64) % 64, 0x80 + c % 64]

/-- UTF-8 encoding of a codepoint list. -/
def utf8Encode (s : List Nat) : List Nat := s.flatMap utf8EncodeChar

/-- Continuation of a 2-byte sequence with lead byte `b0` (`0xC0 ≤ b0 < 0xE0`). -/
def utf8Dec2 (b0 : Nat) : List Nat → Option (Nat × List Nat)
  | b1 :: rest =>
    if 0x80 ≤ b1 ∧ b1 < 0xC0 then
      if 0x80 ≤ (b0 - 0xC0) * 64 + (b1 - 0x80) then
        some ((b0 - 0xC0) * 64 + (b1 - 0x80), rest)
      else none
    else none
  | [] => none

/-- Continuation of a 3-byte sequence with lead byte `b0` (`0xE0 ≤ b0 < 0xF0`). -/
def utf8Dec3 (b0 : Nat) : List Nat → Option (Nat × List Nat)
  | b1 :: b2 :: rest =>
    if (0x80 ≤ b1 ∧ b1 < 0xC0) ∧ (0x80 ≤ b2 ∧ b2 < 0xC0) then
      if 0x800 ≤ (b0 - 0xE0) * 4096 + (b1 - 0x80) * 64 + (b2 - 0x80) ∧
          ¬ (0xD800 ≤ (b0 - 0xE0) * 4096 + (b1 - 0x80) * 64 + (b2 - 0x80) ∧
             (b0 - 0xE0) * 4096 + (b1 - 0x80) * 64 + (b2 - 0x80) ≤ 0xDFFF) then
        some ((b0 - 0xE0) * 4096 + (b1 - 0x80) * 64 + (b2 - 0x80), rest)
      else none
    else none
  | _ => none

/-- Continuation of a 4-byte sequence with lead byte `b0` (`0xF0 ≤ b0 < 0xF8`). -/
def utf8Dec4 (b0 : Nat) : List Nat → Option (Nat × List Nat)
  | b1 :: b2 :: b3 :: rest =>
    if (0x80 ≤ b1 ∧ b1 < 0xC0) ∧ (0x80 ≤ b2 ∧ b2 < 0xC0) ∧ (0x80 ≤ b3 ∧ b3 < 0xC0) then
      if 0x10000 ≤ (b0 - 0xF0) * 262144 + (b1 - 0x80) * 4096 + (b2 - 0x80) * 64 + (b3 - 0x80) ∧
          (b0 - 0xF0) * 262144 + (b1 - 0x80) * 4096 + (b2 - 0x80) * 64 + (b3 - 0x80) < 0x110000 then
        some ((b0 - 0xF0) * 262144 + (b1 - 0x80) * 4096 + (b2 - 0x80) * 64 + (b3 - 0x80), rest)
      else none
    else none
  | _ => none

/-- Decode one UTF-8 sequence from the front of a byte list, rejecting stray
continuation bytes, truncated sequences, overlong encodings, surrogates and
out-of-range codepoints. -/
def utf8DecodeOne : List Nat → Option (Nat × List Nat)
  | [] => none
  | b0 :: rest =>
    if b0 < 0x80 then some (b0, rest)
    else if b0 < 0xC0 then none
    else if b0 < 0xE0 then utf8Dec2 b0 rest
    else if b0 < 0xF0 then utf8Dec3 b0 rest
    else if b0 < 0xF8 then utf8Dec4 b0 rest
    else none

theorem utf8Dec2_length {b0 : Nat} {l : List Nat} {c : Nat} {r : List Nat}
    (h : utf8Dec2 b0 l = some (c, r)) : r.length < l.length := by
  match l with
  | [] => simp [utf8Dec2] at h
  | b1 :: rest =>
    simp only [utf8Dec2] at h
    split at h
    · split at h
      · simp only [Option.some.injEq, Prod.mk.injEq] at h
        simp [← h.2]
      · exact absurd h (by simp)
    · exact absurd h (by simp)

theorem utf8Dec3_length {b0 : Nat} {l : List Nat} {c : Nat} {r : List Nat}
    (h : utf8Dec3 b0 l = some (c, r)) : r.length < l.length := by
  match l with
  | [] => simp [utf8Dec3] at h
  | [b1] => simp [utf8Dec3] at h
  | b1 :: b2 :: rest =>
    simp only [utf8Dec3] at h
    split at h
    · split at h
      · simp only [Option.some.injEq, Prod.mk.injEq] at h
        simp [← h.2]
        omega
      · exact absurd h (by simp)
    · exact absurd h (by simp)

theorem utf8Dec4_length {b0 : Nat} {l : List Nat} {c : Nat} {r : List Nat}
    (h : utf8Dec4 b0 l = some (c, r)) : r.length < l.length := by
  match l with
  | [] => simp [utf8Dec4] at h
  | [b1] => simp [utf8Dec4] at h
  | [b1, b2] => simp [utf8Dec4] at h
  | b1 :: b2 :: b3 :: rest =>
    simp only [utf8Dec4] at h
    split at h
    · split at h
      · simp only [Option.some.injEq, Prod.mk.injEq] at h
        simp [← h.2]
        omega
      · exact absurd h (by simp)
    · exact absurd h (by simp)

/-- One decode step strictly shrinks the byte list. -/
theorem utf8DecodeOne_length {l : List Nat} {c : Nat} {r : List Nat}
    (h : utf8DecodeOne l = some (c, r)) : r.length < l.length := by
  match l with
  | [] => simp [utf8DecodeOne] at h
  | b0 :: rest =>
    simp only [utf8DecodeOne] at h
    split at h
    · simp only [Option.some.injEq, Prod.mk.injEq] at h
      simp [← h.2]
    · split at h
      · exact absurd h (by simp)
      · split at h
        · exact Nat.lt_trans (utf8Dec2_length h) (by simp)
        · split at h
          · exact Nat.lt_trans (utf8Dec3_length h) (by simp)
          · split at h
            · exact Nat.lt_trans (utf8Dec4_length h) (by simp)
            · exact absurd h (by simp)

/-- Strict UTF-8 decoding of a whole byte list (Python `bytes.decode('utf-8')`);
`none` models `UnicodeDecodeError`. -/
def utf8Decode : List Nat → Option (List Nat)
  | [] => some []
  | b0 :: rest0 =>
    match h : utf8DecodeOne (b0 :: rest0) with
    | none => none
    | some (c, rest) =>
      have : rest.length < (b0 :: rest0).length := utf8DecodeOne_length h
      (utf8Decode rest).map (fun cs => c :: cs)
  termination_by l => l.length

theorem utf8Decode_nil : utf8Decode [] = some [] := by
  rw [utf8Decode]

theorem utf8Decode_cons_some {b0 : Nat} {l : List Nat} {c : Nat} {rest : List Nat}
    (h : utf8DecodeOne (b0 :: l) = some (c, rest)) :
    utf8Decode (b0 :: l) = (utf8Decode rest).map (fun cs => c :: cs) := by
  rw [utf8Decode]
  split
  · rw [h] at *
    contradiction
  · rename_i h2
    rw [h] at h2
    simp only [Option.some.injEq, Prod.mk.injEq] at h2
    rw [h2.1, h2.2]

theorem utf8Decode_cons_none {b0 : Nat} {l : List Nat}
    (h : utf8DecodeOne (b0 :: l) = none) : utf8Decode (b0 :: l) = none := by
  rw [utf8Decode]
  split
  · rfl
  · rename_i h2
    rw [h] at h2
    contradiction

theorem utf8Decode_some_step {l : List Nat} {c : Nat} {rest : List Nat}
    (h : utf8DecodeOne l = some (c, rest)) :
    utf8Decode l = (utf8Decode rest).map (fun cs => c :: cs) := by
  match l with
  | [] => simp [utf8DecodeOne] at h
  | b0 :: l0 => exact utf8Decode_cons_some h

/-- Decoding one step off `utf8EncodeChar c ++ rest` returns `c` and `rest`,
for any valid codepoint `c`. -/
theorem utf8DecodeOne_encodeChar (c : Nat) (h : ValidCodepoint c) (rest : List Nat) :
    utf8DecodeOne (utf8EncodeChar c ++ rest) = some (c, rest) := by
  obtain ⟨hlt, hsur⟩ := h
  by_cases h1 : c < 0x80
  · simp [utf8EncodeChar, h1, utf8DecodeOne]
  · by_cases h2 : c < 0x800
    · have e0 : utf8EncodeChar c = [0xC0 + c / 64, 0x80 + c % 64] := by
        simp [utf8EncodeChar, h1, h2]
      have f1 : ¬ (0xC0 + c / 64 < 0x80) := by omega
      have f2 : ¬ (0xC0 + c / 64 < 0xC0) := by omega
      have f3 : 0xC0 + c / 64 < 0xE0 := by omega
      rw [e0]
      simp only [List.cons_append, List.nil_append, utf8DecodeOne, if_neg f1, if_neg f2,
        if_pos f3, utf8Dec2]
      rw [if_pos (by omega : 0x80 ≤ 0x80 + c % 64 ∧ 0x80 + c % 64 < 0xC0)]
      rw [if_pos (by omega :
        0x80 ≤ (0xC0 + c / 64 - 0xC0) * 64 + (0x80 + c % 64 - 0x80))]
      simp only [Option.some.injEq, Prod.mk.injEq]
      exact ⟨by omega, trivial⟩
    · by_cases h3 : c < 0x10000
      · have e0 : utf8EncodeChar c = [0xE0 + c / 4096, 0x80 + (c / 64) % 64, 0x80 + c % 64] := by
          simp [utf8EncodeChar, h1, h2, h3]
        have f1 : ¬ (0xE0 + c / 4096 < 0x80) := by omega
        have f2 : ¬ (0xE0 + c / 4096 < 0xC0) := by omega
        have f3 : ¬ (0xE0 + c / 4096 < 0xE0) := by omega
        have f4 : 0xE0 + c / 4096 < 0xF0 := by omega
        rw [e0]
        simp only [List.cons_append, List.nil_append, utf8DecodeOne, if_neg f1, if_neg f2,
          if_neg f3, if_pos f4, utf8Dec3]
        rw [if_pos (by omega :
          (0x80 ≤ 0x80 + (c / 64) % 64 ∧ 0x80 + (c / 64) % 64 < 0xC0) ∧
          (0x80 ≤ 0x80 + c % 64 ∧ 0x80 + c % 64 < 0xC0))]
        rw [if_pos (by omega :
          0x800 ≤ (0xE0 + c / 4096 - 0xE0) * 4096 + (0x80 + (c / 64) % 64 - 0x80) * 64 +
            (0x80 + c % 64 - 0x80) ∧
          ¬ (0xD800 ≤ (0xE0 + c / 4096 - 0xE0) * 4096 + (0x80 + (c / 64) % 64 - 0x80) * 64 +
              (0x80 + c % 64 - 0x80) ∧
            (0xE0 + c / 4096 - 0xE0) * 4096 + (0x80 + (c / 64) % 64 - 0x80) * 64 +
              (0x80 + c % 64 - 0x80) ≤ 0xDFFF))]
        simp only [Option.some.injEq, Prod.mk.injEq]
        exact ⟨by omega, trivial⟩
      · have e0 : utf8EncodeChar c =
            [0xF0 + c / 262144, 0x80 + (c / 4096) % 64, 0x80 + (c / 64) % 64, 0x80 + c % 64] := by
          simp [utf8EncodeChar, h1, h2, h3]
        have f1 : ¬ (0xF0 + c / 262144 < 0x80) := by omega
        have f2 : ¬ (0xF0 + c / 262144 < 0xC0) := by omega
        have f3 : ¬ (0xF0 + c / 262144 < 0xE0) := by omega
        have f4 : ¬ (0xF0 + c / 262144 < 0xF0) := by omega
        have f5 : 0xF0 + c / 262144 < 0xF8 := by omega
        rw [e0]
        simp only [List.cons_append, List.nil_append, utf8DecodeOne, if_neg f1, if_neg f2,
          if_neg f3, if_neg f4, if_pos f5, utf8Dec4]
        rw [if_pos (by omega :
          (0x80 ≤ 0x80 + (c / 4096) % 64 ∧ 0x80 + (c / 4096) % 64 < 0xC0) ∧
          (0x80 ≤ 0x80 + (c / 64) % 64 ∧ 0x80 + (c / 64) % 64 < 0xC0) ∧
          (0x80 ≤ 0x80 + c % 64 ∧ 0x80 + c % 64 < 0xC0))]
        rw [if_pos (by omega :
          0x10000 ≤ (0xF0 + c / 262144 - 0xF0) * 262144 + (0x80 + (c / 4096) % 64 - 0x80) * 4096 +
            (0x80 + (c / 64) % 64 - 0x80) * 64 + (0x80 + c % 64 - 0x80) ∧
          (0xF0 + c / 262144 - 0xF0) * 262144 + (0x80 + (c / 4096) % 64 - 0x80) * 4096 +
            (0x80 + (c / 64) % 64 - 0x80) * 64 + (0x80 + c % 64 - 0x80) < 0x110000)]
        simp only [Option.some.injEq, Prod.mk.injEq]
        exact ⟨by omega, trivial⟩

/-- Codec round trip: decoding the encoding of a valid codepoint list succeeds
and returns the list. -/
theorem utf8Decode_utf8Encode (s : List Nat) (h : ∀ c ∈ s, ValidCodepoint c) :
    utf8Decode (utf8Encode s) = some s := by
  induction s with
  | nil => simpa [utf8Encode] using utf8Decode_nil
  | cons c cs ih =>
    have enc : utf8Encode (c :: cs) = utf8EncodeChar c ++ utf8Encode cs := by
      simp [utf8Encode]
    rw [enc,
      utf8Decode_some_step (utf8DecodeOne_encodeChar c (h c (List.mem_cons_self c cs)) _),
      ih (fun x hx => h x (List.mem_cons_of_mem c hx))]
    rfl

theorem utf8Dec2_sound {b0 : Nat} {l : List Nat} {c : Nat} {r : List Nat}
    (hb : 0xC0 ≤ b0 ∧ b0 < 0xE0) (h : utf8Dec2 b0 l = some (c, r)) :
    b0 :: l = utf8EncodeChar c ++ r := by
  match l with
  | [] => simp [utf8Dec2] at h
  | b1 :: rest =>
    simp only [utf8Dec2] at h
    split at h
    · split at h
      · rename_i hc1 hc2
        simp only [Option.some.injEq, Prod.mk.injEq] at h
        obtain ⟨hceq, rfl⟩ := h
        have g1 : ¬ c < 0x80 := by omega
        have g2 : c < 0x800 := by omega
        simp only [utf8EncodeChar, if_neg g1, if_pos g2, List.cons_append, List.nil_append,
          List.cons.injEq]
        exact ⟨by omega, by omega, trivial⟩
      · exact absurd h (by simp)
    · exact absurd h (by simp)

theorem utf8Dec3_sound {b0 : Nat} {l : List Nat} {c : Nat} {r : List Nat}
    (hb : 0xE0 ≤ b0 ∧ b0 < 0xF0) (h : utf8Dec3 b0 l = some (c, r)) :
    b0 :: l = utf8EncodeChar c ++ r := by
  match l with
  | [] => simp [utf8Dec3] at h
  | [b1] => simp [utf8Dec3] at h
  | b1 :: b2 :: rest =>
    simp only [utf8Dec3] at h
    split at h
    · split at h
      · rename_i hc1 hc2
        simp only [Option.some.injEq, Prod.mk.injEq] at h
        obtain ⟨hceq, rfl⟩ := h
        have g1 : ¬ c < 0x80 := by omega
        have g2 : ¬ c < 0x800 := by omega
        have g3 : c < 0x10000 := by omega
        simp only [utf8EncodeChar, if_neg g1, if_neg g2, if_pos g3, List.cons_append,
          List.nil_append, List.cons.injEq]
        exact ⟨by omega, by omega, by omega, trivial⟩
      · exact absurd h (by simp)
    · exact absurd h (by simp)

theorem utf8Dec4_sound {b0 : Nat} {l : List Nat} {c : Nat} {r : List Nat}
    (hb : 0xF0 ≤ b0 ∧ b0 < 0xF8) (h : utf8Dec4 b0 l = some (c, r)) :
    b0 :: l = utf8EncodeChar c ++ r := by
  match l with
  | [] => simp [utf8Dec4] at h
  | [b1] => simp [utf8Dec4] at h
  | [b1, b2] => simp [utf8Dec4] at h
  | b1 :: b2 :: b3 :: rest =>
    simp only [utf8Dec4] at h
    split at h
    · split at h
      · rename_i hc1 hc2
        simp only [Option.some.injEq, Prod.mk.injEq] at h
        obtain ⟨hceq, rfl⟩ := h
        have g1 : ¬ c < 0x80 := by omega
        have g2 : ¬ c < 0x800 := by omega
        have g3 : ¬ c < 0x10000 := by omega
        simp only [utf8EncodeChar, if_neg g1, if_neg g2, if_neg g3, List.cons_append,
          List.nil_append, List.cons.injEq]
        exact ⟨by omega, by omega, by omega, by omega, trivial⟩
      · exact absurd h (by simp)
    · exact absurd h (by simp)

/-- A successful decode step identifies the consumed bytes as the UTF-8
encoding of the decoded codepoint. -/
theorem utf8DecodeOne_sound {l : List Nat} {c : Nat} {r : List Nat}
    (h : utf8DecodeOne l = some (c, r)) : l = utf8EncodeChar c ++ r := by
  match l with
  | [] => simp [utf8DecodeOne] at h
  | b0 :: rest =>
    simp only [utf8DecodeOne] at h
    split at h
    · rename_i hc1
      simp only [Option.some.injEq, Prod.mk.injEq] at h
      obtain ⟨rfl, rfl⟩ := h
      simp [utf8EncodeChar, hc1]
    · split at h
      · exact absurd h (by simp)
      · split at h
        · rename_i g1 g2 g3
          exact utf8Dec2_sound ⟨by omega, g3⟩ h
        · split at h
          · rename_i g1 g2 g3 g4
            exact utf8Dec3_sound ⟨by omega, g4⟩ h
          · split at h
            · rename_i g1 g2 g3 g4 g5
              exact utf8Dec4_sound ⟨by omega, g5⟩ h
            · exact absurd h (by simp)

theorem utf8Decode_sound_aux :
    ∀ (n : Nat) (l : List Nat), l.length ≤ n →
      ∀ s, utf8Decode l = some s → utf8Encode s = l := by
  intro n
  induction n with
  | zero =>
    intro l hl s hs
    have hnil : l = [] := List.eq_nil_of_length_eq_zero (Nat.le_zero.mp hl)
    subst hnil
    rw [utf8Decode_nil] at hs
    simp only [Option.some.injEq] at hs
    subst hs
    rfl
  | succ n ih =>
    intro l hl s hs
    match l with
    | [] =>
      rw [utf8Decode_nil] at hs
      simp only [Option.some.injEq] at hs
      subst hs
      rfl
    | b0 :: rest =>
      cases hone : utf8DecodeOne (b0 :: rest) with
      | none => rw [utf8Decode_cons_none hone] at hs; cases hs
      | some cr =>
        obtain ⟨c, r⟩ := cr
        rw [utf8Decode_cons_some hone] at hs
        cases hr : utf8Decode r with
        | none => rw [hr] at hs; cases hs
        | some s2 =>
          rw [hr] at hs
          simp only [Option.map_some', Option.some.injEq] at hs
          subst hs
          have hlen : r.length ≤ n := by
            have hdec := utf8DecodeOne_length hone
            simp only [List.length_cons] at hdec hl
            omega
          calc utf8Encode (c :: s2) = utf8EncodeChar c ++ utf8Encode s2 := by
                simp [utf8Encode]
            _ = utf8EncodeChar c ++ r := by rw [ih r hlen s2 hr]
            _ = b0 :: rest := (utf8DecodeOne_sound hone).symm

/-- Decoder soundness: the only byte list that decodes to `s` is `utf8Encode s`. -/
theorem utf8Decode_sound {l : List Nat} {s : List Nat}
    (h : utf8Decode l = some s) : utf8Encode s = l :=
  utf8Decode_sound_aux l.length l le_rfl s h

/-! ## Content cipher (`utils/encryption.py`, class `EncryptionManager`) -/

/-- Key byte used at stream position `i`:
`password_bytes[i % len(password_bytes)]` in the source loops. -/
def keyByteAt (key : List Nat) (i : Nat) : Nat := key.getD (i % key.length) 0

/-- The XOR loop of `simple_encrypt` / `simple_decrypt`, carrying the running
byte index `i`. -/
def xorCycleAux (key : List Nat) : Nat → List Nat → List Nat
  | _, [] => []
  | i, b :: bs => (b ^^^ keyByteAt key i) :: xorCycleAux key (i + 1) bs

/-- XOR every byte of `bs` with the cyclically repeated `key`. -/
def xorCycle (key bs : List Nat) : List Nat := xorCycleAux key 0 bs

theorem xorCycleAux_cancel (key : List Nat) (i : Nat) (bs : List Nat) :
    xorCycleAux key i (xorCycleAux key i bs) = bs := by
  induction bs generalizing i with
  | nil => rfl
  | cons b bs ih =>
    simp only [xorCycleAux, ih]
    congr 1
    rw [Nat.xor_assoc, Nat.xor_self, Nat.xor_zero]

/-- XOR-ing twice with the same cyclic keystream is the identity. -/
theorem xorCycle_cancel (key bs : List Nat) : xorCycle key (xorCycle key bs) = bs :=
  xorCycleAux_cancel key 0 bs

theorem xorCycleAux_length (key : List Nat) (i : Nat) (bs : List Nat) :
    (xorCycleAux key i bs).length = bs.length := by
  induction bs generalizing i with
  | nil => rfl
  | cons b bs ih => simp [xorCycleAux, ih]

theorem xorCycleAux_getD (key : List Nat) (i j : Nat) (bs : List Nat) (hj : j < bs.length) :
    (xorCycleAux key i bs).getD j 0 = bs.getD j 0 ^^^ keyByteAt key (i + j) := by
  induction bs generalizing i j with
  | nil => simp at hj
  | cons b bs ih =>
    cases j with
    | zero => simp [xorCycleAux]
    | succ j =>
      simp only [xorCycleAux, List.getD_cons_succ]
      rw [ih (i + 1) j (by simpa using hj)]
      congr 2
      omega

/-- `b'simple_salt'` as a byte list. -/
def simpleSalt : List Nat := [115, 105, 109, 112, 108, 101, 95, 115, 97, 108, 116]

/-- `EncryptionManager.simple_encrypt`: XOR the UTF-8 bytes of `text` with the
cyclically repeated UTF-8 bytes of `password`; returns the encrypted bytes
paired with the constant salt `b'simple_salt'`. -/
def simple_encrypt (text password : List Nat) : List Nat × List Nat :=
  (xorCycle (utf8Encode password) (utf8Encode text), simpleSalt)

/-- `EncryptionManager.simple_decrypt`: XOR `encrypted_data` with the cyclic
keystream of `password`, then UTF-8-decode; `none` models the raised
decode failure (the `salt` argument is unused by the source as well). -/
def simple_decrypt (encrypted_data : List Nat) (password : List Nat) : Option (List Nat) :=
  utf8Decode (xorCycle (utf8Encode password) encrypted_data)

/-- Codepoints of the hardcoded `master_password = "default_master_key_2024"`. -/
def master_password : List Nat := "default_master_key_2024".data.map Char.toNat

/-- `EncryptionManager.encrypt_with_master_key`. -/
def encrypt_with_master_key (text : List Nat) : List Nat :=
  (simple_encrypt text master_password).1

/-- `EncryptionManager.decrypt_with_master_key`. -/
def decrypt_with_master_key (encrypted_data : List Nat) : Option (List Nat) :=
  simple_decrypt encrypted_data master_password

/-- **C3.** For every UTF-8-encodable string `s` and every non-empty
UTF-8-encodable password `p`, `simple_decrypt (simple_encrypt s p) p = s`, and
the same round trip holds for `encrypt_with_master_key` /
`decrypt_with_master_key`. -/
theorem simple_encrypt_decrypt_round_trip (s p : List Nat)
    (hs : ∀ c ∈ s, ValidCodepoint c) (hp : ∀ c ∈ p, ValidCodepoint c) (hpne : p ≠ []) :
    simple_decrypt (simple_encrypt s p).1 p = some s ∧
    decrypt_with_master_key (encrypt_with_master_key s) = some s := by
  constructor
  · unfold simple_decrypt simple_encrypt
    rw [xorCycle_cancel, utf8Decode_utf8Encode s hs]
  · unfold decrypt_with_master_key encrypt_with_master_key simple_decrypt simple_encrypt
    rw [xorCycle_cancel, utf8Decode_utf8Encode s hs]

/-- Witness for C3 at `s = "hi"`, `p = "pw"` (codepoints). -/
theorem simple_encrypt_decrypt_round_trip_witness :
    ((∀ c ∈ [104, 105], ValidCodepoint c) ∧ (∀ c ∈ [112, 119], ValidCodepoint c) ∧
      ([112, 119] : List Nat) ≠ []) ∧
    simple_decrypt (simple_encrypt [104, 105] [112, 119]).1 [112, 119] = some [104, 105] ∧
    decrypt_with_master_key (encrypt_with_master_key [104, 105]) = some [104, 105] :=
  ⟨⟨by decide, by decide, by decide⟩,
    simple_encrypt_decrypt_round_trip [104, 105] [112, 119]
      (by decide) (by decide) (by decide)⟩

/-- **C4 counterexample.** The wrong-key claim is false as stated: for the
distinct non-empty passwords `p1 = "a"` and `p2 = "aa"`, decrypting
`simple_encrypt "b" p1` with `p2` silently returns the original plaintext
`"b"`, because the two passwords generate the same cyclic keystream. -/
theorem wrong_key_silent_plaintext_counterexample :
    ([97] : List Nat) ≠ [97, 97] ∧ ([97] : List Nat) ≠ [] ∧ ([97, 97] : List Nat) ≠ [] ∧
    simple_decrypt (simple_encrypt [98] [97]).1 [97, 97] = some [98] := by
  refine ⟨by decide, by decide, by decide, ?_⟩
  have e1 : xorCycle (utf8Encode [97, 97]) (simple_encrypt [98] [97]).1 = [98] := by decide
  unfold simple_decrypt
  rw [e1, utf8Decode_cons_some (by decide : utf8DecodeOne [98] = some (98, [])),
    utf8Decode_nil]
  rfl

/-- **C4 (amended).** If the cyclic keystreams derived from `p1` and `p2`
differ at some byte position `i` within the encoded message, then decrypting
`simple_encrypt s p1` with `p2` either fails to decode or returns a string
different from `s`; it never silently returns the original plaintext.
(As stated the claim is false: distinct passwords such as `"a"` and `"aa"`
generate identical keystreams, see the counterexample.) -/
theorem wrong_keystream_never_silent (s p1 p2 : List Nat) (i : Nat)
    (hs : ∀ c ∈ s, ValidCodepoint c)
    (hi : i < (utf8Encode s).length)
    (hkey : keyByteAt (utf8Encode p1) i ≠ keyByteAt (utf8Encode p2) i) :
    simple_decrypt (simple_encrypt s p1).1 p2 = none ∨
    ∃ s2, simple_decrypt (simple_encrypt s p1).1 p2 = some s2 ∧ s2 ≠ s := by
  have hd : xorCycle (utf8Encode p2) (xorCycle (utf8Encode p1) (utf8Encode s)) ≠
      utf8Encode s := by
    intro he
    apply hkey
    have hlen1 : i < (xorCycleAux (utf8Encode p1) 0 (utf8Encode s)).length := by
      rw [xorCycleAux_length]; exact hi
    have h1 : (xorCycle (utf8Encode p2) (xorCycle (utf8Encode p1) (utf8Encode s))).getD i 0 =
        ((utf8Encode s).getD i 0 ^^^ keyByteAt (utf8Encode p1) i) ^^^
          keyByteAt (utf8Encode p2) i := by
      unfold xorCycle
      rw [xorCycleAux_getD _ 0 i _ hlen1, xorCycleAux_getD _ 0 i _ hi]
      simp
    rw [he] at h1
    have h2 : keyByteAt (utf8Encode p1) i ^^^ keyByteAt (utf8Encode p2) i = 0 := by
      have hb : (utf8Encode s).getD i 0 ^^^
          (keyByteAt (utf8Encode p1) i ^^^ keyByteAt (utf8Encode p2) i) =
          (utf8Encode s).getD i 0 := by
        rw [← Nat.xor_assoc]
        exact h1.symm
      calc keyByteAt (utf8Encode p1) i ^^^ keyByteAt (utf8Encode p2) i
          = (utf8Encode s).getD i 0 ^^^ ((utf8Encode s).getD i 0 ^^^
            (keyByteAt (utf8Encode p1) i ^^^ keyByteAt (utf8Encode p2) i)) := by
            rw [← Nat.xor_assoc, Nat.xor_self, Nat.zero_xor]
        _ = (utf8Encode s).getD i 0 ^^^ (utf8Encode s).getD i 0 := by rw [hb]
        _ = 0 := Nat.xor_self _
    calc keyByteAt (utf8Encode p1) i
        = keyByteAt (utf8Encode p1) i ^^^ 0 := by rw [Nat.xor_zero]
      _ = keyByteAt (utf8Encode p1) i ^^^
          (keyByteAt (utf8Encode p1) i ^^^ keyByteAt (utf8Encode p2) i) := by rw [h2]
      _ = keyByteAt (utf8Encode p2) i := by
          rw [← Nat.xor_assoc, Nat.xor_self, Nat.zero_xor]
  unfold simple_decrypt simple_encrypt
  cases hres : utf8Decode (xorCycle (utf8Encode p2)
      (xorCycle (utf8Encode p1) (utf8Encode s))) with
  | none => exact Or.inl rfl
  | some s2 =>
    refine Or.inr ⟨s2, rfl, ?_⟩
    intro hss
    subst hss
    exact hd (utf8Decode_sound hres).symm

/-- Witness for the amended C4 at `s = "b"`, `p1 = "a"`, `p2 = "c"`, `i = 0`. -/
theorem wrong_keystream_never_silent_witness :
    ((∀ c ∈ [98], ValidCodepoint c) ∧ 0 < (utf8Encode [98]).length ∧
      keyByteAt (utf8Encode [97]) 0 ≠ keyByteAt (utf8Encode [99]) 0) ∧
    (simple_decrypt (simple_encrypt [98] [97]).1 [99] = none ∨
      ∃ s2, simple_decrypt (simple_encrypt [98] [97]).1 [99] = some s2 ∧ s2 ≠ [98]) :=
  ⟨⟨by decide, by decide, by decide⟩,
    wrong_keystream_never_silent [98] [97] [99] 0 (by decide) (by decide) (by decide)⟩

/-! ## Password guard (`ui/profile_ui.py`, class `PasswordManager`)

The in-memory attributes (`failed_attempts`, `last_attempt_time`) and the
persisted settings the guard reads and writes (`journal_password_hash`,
`journal_password_enabled`, `journal_lockout_time`) are combined into one
state record.  `hash_password` (a SHA-256 hex digest) is kept abstract as a
parameter `hashPw : String → String`: the guard only ever compares digests
for equality.  `time.time()` is an explicit `now : Nat` argument passed to
each operation that reads the clock; operations that mutate state return the
new state alongside their result. -/

structure PMState where
  failed_attempts : Nat
  last_attempt_time : Nat
  journal_password_hash : String
  journal_password_enabled : String
  journal_lockout_time : Nat
  deriving DecidableEq

/-- `self.lockout_duration = 60`. -/
def lockout_duration : Nat := 60

/-- `PasswordManager.__init__`: a fresh manager has `failed_attempts = 0` and
`last_attempt_time = 0`, over whatever settings are persisted. -/
def pmInit (hash enabled : String) (lockout_time : Nat) : PMState :=
  { failed_attempts := 0, last_attempt_time := 0,
    journal_password_hash := hash, journal_password_enabled := enabled,
    journal_lockout_time := lockout_time }

/-- `PasswordManager.reset_failed_attempts`: zero the in-memory counter and
persist `journal_lockout_time = '0'`. -/
def reset_failed_attempts (s : PMState) : PMState :=
  { s with failed_attempts := 0, journal_lockout_time := 0 }

/-- `PasswordManager.is_locked`: below 5 failures never locked; at 5 or more,
locked until 60 seconds have passed since the persisted lockout timestamp, at
which point `reset_failed_attempts` runs as a side effect. -/
def is_locked (s : PMState) (now : Nat) : Bool × PMState :=
  if s.failed_attempts < 5 then (false, s)
  else if lockout_duration ≤ now - s.journal_lockout_time then
    (false, reset_failed_attempts s)
  else (true, s)

/-- `PasswordManager.has_password`. -/
def has_password (s : PMState) : Bool :=
  !(s.journal_password_hash == "") && (s.journal_password_enabled == "true")

/-- `PasswordManager.verify_password`: the early `is_locked` call may itself
reset the state, so its updated state `r.2` threads through the rest. -/
def verify_password (hashPw : String → String) (s : PMState) (now : Nat)
    (password : String) : Bool × PMState :=
  let r := is_locked s now
  if r.1 then (false, r.2)
  else if r.2.journal_password_hash = "" then (true, r.2)
  else if hashPw password = r.2.journal_password_hash then (true, reset_failed_attempts r.2)
  else
    let s2 : PMState :=
      { r.2 with failed_attempts := r.2.failed_attempts + 1, last_attempt_time := now }
    if 5 ≤ s2.failed_attempts then (false, { s2 with journal_lockout_time := now })
    else (false, s2)

/-- `PasswordManager.set_password` (the storage-success path). -/
def set_password (hashPw : String → String) (s : PMState) (password : String) : PMState :=
  reset_failed_attempts
    { s with journal_password_hash := hashPw password, journal_password_enabled := "true" }

/-- `PasswordManager.change_password`. -/
def change_password (hashPw : String → String) (s : PMState) (now : Nat)
    (current new_password : String) : Bool × PMState :=
  let r := verify_password hashPw s now current
  if r.1 then (true, set_password hashPw r.2 new_password) else (false, r.2)

/-- `PasswordManager.remove_password`. -/
def remove_password (hashPw : String → String) (s : PMState) (now : Nat)
    (current : String) : Bool × PMState :=
  let r := verify_password hashPw s now current
  if r.1 then
    (true, reset_failed_attempts
      { r.2 with journal_password_hash := "", journal_password_enabled := "false" })
  else (false, r.2)

/-- `PasswordManager.get_lockout_remaining`. -/
def get_lockout_remaining (s : PMState) (now : Nat) : Nat × PMState :=
  let r := is_locked s now
  if r.1 then (lockout_duration - (now - r.2.journal_lockout_time), r.2)
  else (0, r.2)

theorem is_locked_below {fa lat lt : Nat} {h en : String} (now : Nat) (hfa : fa < 5) :
    is_locked ⟨fa, lat, h, en, lt⟩ now = (false, ⟨fa, lat, h, en, lt⟩) := by
  simp [is_locked, hfa]

theorem is_locked_active {fa lat lt now : Nat} {h en : String}
    (hfa : 5 ≤ fa) (ht : now - lt < lockout_duration) :
    is_locked ⟨fa, lat, h, en, lt⟩ now = (true, ⟨fa, lat, h, en, lt⟩) := by
  unfold is_locked
  rw [if_neg (by simp; omega), if_neg (by simp; omega)]

theorem is_locked_expired {fa lat lt now : Nat} {h en : String}
    (hfa : 5 ≤ fa) (ht : lockout_duration ≤ now - lt) :
    is_locked ⟨fa, lat, h, en, lt⟩ now = (false, ⟨0, lat, h, en, 0⟩) := by
  unfold is_locked
  rw [if_neg (by simp; omega), if_pos (by simpa using ht)]
  rfl

/-- A wrong password below the threshold just increments the counter. -/
theorem verify_wrong_step (hashPw : String → String) {fa : Nat} (lat lt now : Nat)
    {h : String} (en : String) {p : String}
    (hfa : fa + 1 < 5) (hh : h ≠ "") (hw : hashPw p ≠ h) :
    verify_password hashPw ⟨fa, lat, h, en, lt⟩ now p = (false, ⟨fa + 1, now, h, en, lt⟩) := by
  unfold verify_password
  rw [is_locked_below now (by omega)]
  simp only [hh, hw, if_false, if_neg]
  simp [hh, hw]
  omega

/-- The fifth consecutive wrong password sets the persisted lockout timestamp
to the time of the attempt. -/
theorem verify_wrong_fifth (hashPw : String → String) (lat lt now : Nat)
    {h : String} (en : String) {p : String} (hh : h ≠ "") (hw : hashPw p ≠ h) :
    verify_password hashPw ⟨4, lat, h, en, lt⟩ now p = (false, ⟨5, now, h, en, now⟩) := by
  unfold verify_password
  rw [is_locked_below now (by omega)]
  simp [hh, hw]

/-- While locked, any password (also the correct one) is rejected and the
state is untouched. -/
theorem verify_while_locked (hashPw : String → String) {fa : Nat} (lat lt now : Nat)
    {h : String} (en : String) (p : String)
    (hfa : 5 ≤ fa) (ht : now - lt < lockout_duration) :
    verify_password hashPw ⟨fa, lat, h, en, lt⟩ now p = (false, ⟨fa, lat, h, en, lt⟩) := by
  unfold verify_password
  rw [is_locked_active hfa ht]
  simp

/-- A sequence of timed `verify_password` calls, keeping only the state. -/
def verify_seq (hashPw : String → String) : PMState → List (Nat × String) → PMState
  | s, [] => s
  | s, (t, p) :: rest => verify_seq hashPw (verify_password hashPw s t p).2 rest

/-- **C2.** With a stored non-empty hash, five consecutive wrong
`verify_password` calls lock the manager: after the first four it is not yet
locked, after exactly five `is_locked` is true (while the 60-second window is
open); while locked `verify_password` rejects every password without touching
the state (the counter stays at 5); and once 60 seconds have elapsed since the
persisted lockout timestamp, `is_locked` is false and the counter resets
to 0. -/
theorem lockout_threshold_and_expiry (hashPw : String → String) (h en : String)
    (lt0 t1 t2 t3 t4 t5 tq te : Nat) (p1 p2 p3 p4 p5 : String)
    (hh : h ≠ "")
    (hw1 : hashPw p1 ≠ h) (hw2 : hashPw p2 ≠ h) (hw3 : hashPw p3 ≠ h)
    (hw4 : hashPw p4 ≠ h) (hw5 : hashPw p5 ≠ h)
    (hlock : tq - t5 < lockout_duration) (hexp : lockout_duration ≤ te - t5) :
    (∀ t, (is_locked (verify_seq hashPw (pmInit h en lt0)
        [(t1, p1), (t2, p2), (t3, p3), (t4, p4)]) t).1 = false) ∧
    verify_seq hashPw (pmInit h en lt0)
        [(t1, p1), (t2, p2), (t3, p3), (t4, p4), (t5, p5)] = ⟨5, t5, h, en, t5⟩ ∧
    (is_locked ⟨5, t5, h, en, t5⟩ tq).1 = true ∧
    (∀ p, verify_password hashPw ⟨5, t5, h, en, t5⟩ tq p = (false, ⟨5, t5, h, en, t5⟩)) ∧
    (is_locked ⟨5, t5, h, en, t5⟩ te).1 = false ∧
    (is_locked ⟨5, t5, h, en, t5⟩ te).2.failed_attempts = 0 := by
  have e1 : verify_password hashPw ⟨0, 0, h, en, lt0⟩ t1 p1 = (false, ⟨1, t1, h, en, lt0⟩) := by
    simpa using verify_wrong_step hashPw 0 lt0 t1 en (by omega) hh hw1
  have e2 : verify_password hashPw ⟨1, t1, h, en, lt0⟩ t2 p2 = (false, ⟨2, t2, h, en, lt0⟩) := by
    simpa using verify_wrong_step hashPw t1 lt0 t2 en (by omega) hh hw2
  have e3 : verify_password hashPw ⟨2, t2, h, en, lt0⟩ t3 p3 = (false, ⟨3, t3, h, en, lt0⟩) := by
    simpa using verify_wrong_step hashPw t2 lt0 t3 en (by omega) hh hw3
  have e4 : verify_password hashPw ⟨3, t3, h, en, lt0⟩ t4 p4 = (false, ⟨4, t4, h, en, lt0⟩) := by
    simpa using verify_wrong_step hashPw t3 lt0 t4 en (by omega) hh hw4
  have e5 : verify_password hashPw ⟨4, t4, h, en, lt0⟩ t5 p5 = (false, ⟨5, t5, h, en, t5⟩) :=
    verify_wrong_fifth hashPw t4 lt0 t5 en hh hw5
  have hseq4 : verify_seq hashPw (pmInit h en lt0)
      [(t1, p1), (t2, p2), (t3, p3), (t4, p4)] = ⟨4, t4, h, en, lt0⟩ := by
    show verify_seq hashPw ⟨0, 0, h, en, lt0⟩ _ = _
    simp only [verify_seq, e1, e2, e3, e4]
  have hseq5 : verify_seq hashPw (pmInit h en lt0)
      [(t1, p1), (t2, p2), (t3, p3), (t4, p4), (t5, p5)] = ⟨5, t5, h, en, t5⟩ := by
    show verify_seq hashPw ⟨0, 0, h, en, lt0⟩ _ = _
    simp only [verify_seq, e1, e2, e3, e4, e5]
  refine ⟨?_, hseq5, ?_, ?_, ?_, ?_⟩
  · intro t
    rw [hseq4, is_locked_below t (by omega)]
  · rw [is_locked_active (by omega) hlock]
  · intro p
    exact verify_while_locked hashPw t5 t5 tq en p (by omega) hlock
  · rw [is_locked_expired (by omega) hexp]
  · rw [is_locked_expired (by omega) hexp]

/-- Witness for C2: concrete digest function, passwords and clock. -/
theorem lockout_threshold_and_expiry_witness :
    (("H" : String) ≠ "" ∧ id "a" ≠ "H" ∧ id "b" ≠ "H" ∧ id "c" ≠ "H" ∧
      id "d" ≠ "H" ∧ id "e" ≠ "H" ∧ 30 - 5 < lockout_duration ∧
      lockout_duration ≤ 70 - 5) ∧
    ((∀ t, (is_locked (verify_seq id (pmInit "H" "true" 0)
        [(1, "a"), (2, "b"), (3, "c"), (4, "d")]) t).1 = false) ∧
    verify_seq id (pmInit "H" "true" 0)
        [(1, "a"), (2, "b"), (3, "c"), (4, "d"), (5, "e")] = ⟨5, 5, "H", "true", 5⟩ ∧
    (is_locked ⟨5, 5, "H", "true", 5⟩ 30).1 = true ∧
    (∀ p, verify_password id ⟨5, 5, "H", "true", 5⟩ 30 p = (false, ⟨5, 5, "H", "true", 5⟩)) ∧
    (is_locked ⟨5, 5, "H", "true", 5⟩ 70).1 = false ∧
    (is_locked ⟨5, 5, "H", "true", 5⟩ 70).2.failed_attempts = 0) :=
  ⟨⟨by decide, by decide, by decide, by decide, by decide, by decide, by decide, by decide⟩,
    lockout_threshold_and_expiry id "H" "true" 0 1 2 3 4 5 30 70 "a" "b" "c" "d" "e"
      (by decide) (by decide) (by decide) (by decide) (by decide) (by decide)
      (by decide) (by decide)⟩

/-- **C1.** [refuted: the code has it the other way] The claim says a process
restart during an active lockout window does not bypass the lockout because
`is_locked` recomputes from the persisted timestamp.  In the code,
`is_locked` checks the in-memory `failed_attempts` counter first and a fresh
`PasswordManager` starts with `failed_attempts = 0`, so after a restart
`is_locked` reports `false` immediately even though the persisted
`journal_lockout_time` is less than 60 seconds old.  Concretely: the lockout
timestamp 1000 is persisted, the process restarts, and at time 1010 (only 10
of the 60 seconds elapsed) `is_locked` already returns `false`. -/
theorem restart_bypasses_lockout :
    1010 - 1000 < lockout_duration ∧
    (pmInit "deadbeef" "true" 1000).failed_attempts = 0 ∧
    (is_locked (pmInit "deadbeef" "true" 1000) 1010).1 = false := by
  refine ⟨by decide, rfl, ?_⟩
  rw [show pmInit "deadbeef" "true" 1000 = ⟨0, 0, "deadbeef", "true", 1000⟩ from rfl,
    is_locked_below 1010 (by omega)]

/-- **C1 (amended).** A fresh `PasswordManager` is never locked, whatever the
persisted settings say: restarting the process resets `failed_attempts` to 0,
`is_locked` checks that counter first, and so a restart bypasses any active
lockout window recorded in `journal_lockout_time`. -/
theorem restart_never_locked (hash enabled : String) (lt now : Nat) :
    (pmInit hash enabled lt).failed_attempts = 0 ∧
    (is_locked (pmInit hash enabled lt) now).1 = false := by
  refine ⟨rfl, ?_⟩
  rw [show pmInit hash enabled lt = ⟨0, 0, hash, enabled, lt⟩ from rfl,
    is_locked_below now (by omega)]

/-- **C10.** `verify_password` never consults `journal_password_enabled`:
with a non-empty stored hash (and the counter below the threshold) it accepts
exactly a matching digest and counts failures toward the lockout, for every
value of the enabled flag — in particular when the flag is `'false'` and
`has_password` therefore reports `false`. -/
theorem verify_ignores_enabled_flag (hashPw : String → String) {fa : Nat} (lat lt now : Nat)
    {h : String} (en : String) (p : String) (hh : h ≠ "") (hfa : fa < 5) :
    ((verify_password hashPw ⟨fa, lat, h, en, lt⟩ now p).1 = true ↔ hashPw p = h) ∧
    (hashPw p ≠ h →
      (verify_password hashPw ⟨fa, lat, h, en, lt⟩ now p).2.failed_attempts = fa + 1) ∧
    has_password ⟨fa, lat, h, "false", lt⟩ = false := by
  refine ⟨?_, ?_, ?_⟩
  · unfold verify_password
    rw [is_locked_below now hfa]
    by_cases hm : hashPw p = h
    · simp [hh, hm]
    · by_cases h5 : 5 ≤ fa + 1 <;> simp [hh, hm, h5]
  · intro hm
    unfold verify_password
    rw [is_locked_below now hfa]
    by_cases h5 : 5 ≤ fa + 1 <;> simp [hh, hm, h5]
  · simp [has_password]

/-- Witness for C10 at `hashPw = id`, `h = "H"`, `p = "x"`, flag `'false'`. -/
theorem verify_ignores_enabled_flag_witness :
    (("H" : String) ≠ "" ∧ (0 : Nat) < 5) ∧
    (((verify_password id ⟨0, 0, "H", "false", 0⟩ 7 "x").1 = true ↔ id "x" = "H") ∧
    (id "x" ≠ "H" →
      (verify_password id ⟨0, 0, "H", "false", 0⟩ 7 "x").2.failed_attempts = 0 + 1) ∧
    has_password ⟨0, 0, "H", "false", 0⟩ = false) :=
  ⟨⟨by decide, by decide⟩,
    verify_ignores_enabled_flag id 0 0 7 "false" "x" (by decide) (by decide)⟩

/-! ### Reachable states of the password guard (for the open-access claim)

`verify_password` consults the lockout state before the stored hash, so the
open-access behaviour needs the (reachable-state) invariant that an empty
stored hash comes with a zero failure counter: the counter only ever rises on
a mismatch against a *non-empty* stored hash, and every operation that empties
or rewrites the hash also resets the counter. -/

/-- One `PasswordManager` operation, as a step relation between states. -/
inductive PMStep (hashPw : String → String) : PMState → PMState → Prop
  | verify (s : PMState) (now : Nat) (p : String) :
      PMStep hashPw s (verify_password hashPw s now p).2
  | set (s : PMState) (p : String) : PMStep hashPw s (set_password hashPw s p)
  | change (s : PMState) (now : Nat) (c n : String) :
      PMStep hashPw s (change_password hashPw s now c n).2
  | remove (s : PMState) (now : Nat) (c : String) :
      PMStep hashPw s (remove_password hashPw s now c).2
  | locked (s : PMState) (now : Nat) : PMStep hashPw s (is_locked s now).2
  | remaining (s : PMState) (now : Nat) : PMStep hashPw s (get_lockout_remaining s now).2
  | reset (s : PMState) : PMStep hashPw s (reset_failed_attempts s)

/-- States a `PasswordManager` can be in: a fresh manager over arbitrary
persisted settings, followed by any sequence of operations. -/
inductive PMReach (hashPw : String → String) : PMState → Prop
  | init (h en : String) (lt : Nat) : PMReach hashPw (pmInit h en lt)
  | step {s s2 : PMState} : PMReach hashPw s → PMStep hashPw s s2 → PMReach hashPw s2

/-- Invariant: an empty stored hash forces a zero in-memory failure counter. -/
def EmptyHashInv (s : PMState) : Prop :=
  s.journal_password_hash = "" → s.failed_attempts = 0

theorem emptyHashInv_reset (s : PMState) : EmptyHashInv (reset_failed_attempts s) :=
  fun _ => rfl

theorem emptyHashInv_is_locked {s : PMState} (hs : EmptyHashInv s) (now : Nat) :
    EmptyHashInv (is_locked s now).2 := by
  unfold is_locked
  split
  · exact hs
  · split
    · exact emptyHashInv_reset s
    · exact hs

theorem emptyHashInv_verify (hashPw : String → String) {s : PMState} (hs : EmptyHashInv s)
    (now : Nat) (p : String) : EmptyHashInv (verify_password hashPw s now p).2 := by
  have h1 : EmptyHashInv (is_locked s now).2 := emptyHashInv_is_locked hs now
  unfold verify_password
  by_cases hl : (is_locked s now).1 = true
  · simp only [hl, if_true]
    exact h1
  · simp only [hl, if_false]
    by_cases he : (is_locked s now).2.journal_password_hash = ""
    · simp only [he, if_true]
      exact h1
    · simp only [he, if_false]
      by_cases hm : hashPw p = (is_locked s now).2.journal_password_hash
      · simp only [hm, if_true]
        exact emptyHashInv_reset _
      · simp only [hm, if_false]
        by_cases h5 : 5 ≤ (is_locked s now).2.failed_attempts + 1 <;>
          simp only [h5, if_true, if_false] <;>
          exact fun habs => absurd habs he

theorem emptyHashInv_set (hashPw : String → String) (s : PMState) (p : String) :
    EmptyHashInv (set_password hashPw s p) :=
  fun _ => rfl

theorem emptyHashInv_change (hashPw : String → String) {s : PMState} (hs : EmptyHashInv s)
    (now : Nat) (c n : String) : EmptyHashInv (change_password hashPw s now c n).2 := by
  unfold change_password
  by_cases hv : (verify_password hashPw s now c).1 = true
  · simp only [hv, if_true]
    exact emptyHashInv_set hashPw _ n
  · simp only [hv, if_false]
    exact emptyHashInv_verify hashPw hs now c

theorem emptyHashInv_remove (hashPw : String → String) {s : PMState} (hs : EmptyHashInv s)
    (now : Nat) (c : String) : EmptyHashInv (remove_password hashPw s now c).2 := by
  unfold remove_password
  by_cases hv : (verify_password hashPw s now c).1 = true
  · simp only [hv, if_true]
    exact emptyHashInv_reset _
  · simp only [hv, if_false]
    exact emptyHashInv_verify hashPw hs now c

theorem emptyHashInv_remaining {s : PMState} (hs : EmptyHashInv s) (now : Nat) :
    EmptyHashInv (get_lockout_remaining s now).2 := by
  unfold get_lockout_remaining
  by_cases hl : (is_locked s now).1 = true <;> simp only [hl, if_true, if_false] <;>
    exact emptyHashInv_is_locked hs now

/-- The invariant holds in every reachable state. -/
theorem pmReach_inv {hashPw : String → String} {s : PMState} (hr : PMReach hashPw s) :
    EmptyHashInv s := by
  induction hr with
  | init h en lt => exact fun _ => rfl
  | step hr hstep ih =>
    cases hstep with
    | verify now p => exact emptyHashInv_verify hashPw ih now p
    | set p => exact emptyHashInv_set hashPw _ p
    | change now c n => exact emptyHashInv_change hashPw ih now c n
    | remove now c => exact emptyHashInv_remove hashPw ih now c
    | locked now => exact emptyHashInv_is_locked ih now
    | remaining now => exact emptyHashInv_remaining ih now
    | reset => exact emptyHashInv_reset _

/-- **C5.** In every reachable state with an empty stored hash (protection
never configured, or removed), `verify_password` accepts every password and
`has_password` reports `false`. -/
theorem open_access_when_no_hash (hashPw : String → String) {s : PMState}
    (hr : PMReach hashPw s) (hh : s.journal_password_hash = "") (now : Nat) (p : String) :
    (verify_password hashPw s now p).1 = true ∧ has_password s = false := by
  have hfa : s.failed_attempts = 0 := pmReach_inv hr hh
  constructor
  · have hl : is_locked s now = (false, s) := by
      unfold is_locked
      rw [if_pos (by omega)]
    unfold verify_password
    rw [hl]
    simp [hh]
  · simp [has_password, hh]

/-- Witness for C5 at the fresh state with no stored hash. -/
theorem open_access_when_no_hash_witness :
    (PMReach id (pmInit "" "false" 0) ∧ (pmInit "" "false" 0).journal_password_hash = "") ∧
    (verify_password id (pmInit "" "false" 0) 3 "anything").1 = true ∧
    has_password (pmInit "" "false" 0) = false :=
  ⟨⟨PMReach.init "" "false" 0, rfl⟩,
    open_access_when_no_hash id (PMReach.init "" "false" 0) rfl 3 "anything"⟩

/-! ## Journal entries (`database/models.py`, class `JournalEntry`)

A stored row of `journal_entries`.  `datetime` values are a calendar date plus
a seconds-within-day component; `ORDER BY created_at DESC` on ISO strings is
chronological, modelled by the lexicographic order `dtLt`/`dtLe` below.
`id = 0` models a falsy `id` (`None`), as in `if not self.id`. -/

structure Date where
  year : Nat
  month : Nat
  day : Nat
  deriving DecidableEq

structure DateTime where
  date : Date
  seconds : Nat
  deriving DecidableEq

/-- Chronological strict order on datetimes (lexicographic on components,
matching string comparison of ISO-format timestamps). -/
def dtLt (a b : DateTime) : Prop :=
  a.date.year < b.date.year ∨ (a.date.year = b.date.year ∧
    (a.date.month < b.date.month ∨ (a.date.month = b.date.month ∧
      (a.date.day < b.date.day ∨ (a.date.day = b.date.day ∧
        a.seconds < b.seconds)))))

instance (a b : DateTime) : Decidable (dtLt a b) := by
  unfold dtLt; infer_instance

def dtLe (a b : DateTime) : Prop := dtLt a b ∨ a = b

instance (a b : DateTime) : Decidable (dtLe a b) := by
  unfold dtLe; infer_instance

theorem dtLe_total (a b : DateTime) : dtLe a b ∨ dtLe b a := by
  obtain ⟨⟨y1, m1, d1⟩, s1⟩ := a
  obtain ⟨⟨y2, m2, d2⟩, s2⟩ := b
  simp only [dtLe, dtLt, DateTime.mk.injEq, Date.mk.injEq]
  omega

theorem dtLe_trans {a b c : DateTime} (h1 : dtLe a b) (h2 : dtLe b c) : dtLe a c := by
  obtain ⟨⟨y1, m1, d1⟩, s1⟩ := a
  obtain ⟨⟨y2, m2, d2⟩, s2⟩ := b
  obtain ⟨⟨y3, m3, d3⟩, s3⟩ := c
  simp only [dtLe, dtLt, DateTime.mk.injEq, Date.mk.injEq] at h1 h2 ⊢
  omega

structure JournalEntry where
  id : Nat
  title : List Char
  content : List Char
  encrypted_content : Option (List Nat)
  is_encrypted : Bool
  mood_rating : Option Nat
  created_at : DateTime
  updated_at : DateTime
  deriving DecidableEq

/-- `JournalEntry.update(title=None, content=None, mood_rating=None)`: does
nothing when `self.id` is falsy; patches exactly the supplied fields; and
refreshes `updated_at` (to `datetime.now()`, here `now`) only when at least
one field was supplied (`if updates:`). -/
def JournalEntry.update (e : JournalEntry) (now : DateTime)
    (title content : Option (List Char)) (mood_rating : Option Nat) : JournalEntry :=
  if e.id = 0 then e
  else
    let e1 := match title with | some t => { e with title := t } | none => e
    let e2 := match content with | some c => { e1 with content := c } | none => e1
    let e3 := match mood_rating with | some m => { e2 with mood_rating := some m } | none => e2
    if title.isSome || content.isSome || mood_rating.isSome then
      { e3 with updated_at := now }
    else e3

/-- **C8 counterexample.** `update` with no supplied fields does not refresh
`updated_at`: for an entry with `updated_at` at second 100, a call at second
200 leaves the entry (including `updated_at`) unchanged, so `updated_at` is
not "always refreshed to a later timestamp". -/
theorem update_no_fields_keeps_updated_at_counterexample :
    (JournalEntry.update
        ⟨1, ['t'], ['c'], none, false, some 3, ⟨⟨2024, 1, 15⟩, 0⟩, ⟨⟨2024, 1, 15⟩, 100⟩⟩
        ⟨⟨2024, 1, 15⟩, 200⟩ none none none).updated_at = ⟨⟨2024, 1, 15⟩, 100⟩ ∧
    dtLt ⟨⟨2024, 1, 15⟩, 100⟩ ⟨⟨2024, 1, 15⟩, 200⟩ := by
  constructor
  · rfl
  · decide

/-- **C8 (amended).** When the entry has a truthy `id` and at least one of
`title`, `content`, `mood_rating` is supplied, `update` changes exactly the
supplied fields, keeps every unsupplied field (and `id`, `created_at`), and
refreshes `updated_at` to the strictly later call time; in particular
`update(content=...)` leaves `title` and `mood_rating` unchanged.  (A call
supplying no fields, or on an entry without an id, changes nothing — see the
counterexample.) -/
theorem journal_entry_partial_update (e : JournalEntry) (now : DateTime)
    (title content : Option (List Char)) (mood_rating : Option Nat)
    (hid : e.id ≠ 0)
    (hsome : title.isSome || content.isSome || mood_rating.isSome)
    (hlater : dtLt e.updated_at now) :
    (e.update now title content mood_rating).id = e.id ∧
    (e.update now title content mood_rating).title = title.getD e.title ∧
    (e.update now title content mood_rating).content = content.getD e.content ∧
    (e.update now title content mood_rating).mood_rating =
      (if mood_rating.isSome then mood_rating else e.mood_rating) ∧
    (e.update now title content mood_rating).created_at = e.created_at ∧
    (e.update now title content mood_rating).updated_at = now ∧
    dtLt e.updated_at (e.update now title content mood_rating).updated_at := by
  cases title <;> cases content <;> cases mood_rating <;>
    simp_all [JournalEntry.update, hid]

/-- Witness for the amended C8: content-only update on a concrete entry. -/
theorem journal_entry_partial_update_witness :
    ((1 : Nat) ≠ 0 ∧
      ((none : Option (List Char)).isSome || (some ['n']).isSome ||
        (none : Option Nat).isSome) = true ∧
      dtLt ⟨⟨2024, 1, 15⟩, 100⟩ ⟨⟨2024, 1, 15⟩, 200⟩) ∧
    ((JournalEntry.update
        ⟨1, ['t'], ['c'], none, false, some 3, ⟨⟨2024, 1, 15⟩, 0⟩, ⟨⟨2024, 1, 15⟩, 100⟩⟩
        ⟨⟨2024, 1, 15⟩, 200⟩ none (some ['n']) none).title = ['t'] ∧
      (JournalEntry.update
        ⟨1, ['t'], ['c'], none, false, some 3, ⟨⟨2024, 1, 15⟩, 0⟩, ⟨⟨2024, 1, 15⟩, 100⟩⟩
        ⟨⟨2024, 1, 15⟩, 200⟩ none (some ['n']) none).content = ['n'] ∧
      (JournalEntry.update
        ⟨1, ['t'], ['c'], none, false, some 3, ⟨⟨2024, 1, 15⟩, 0⟩, ⟨⟨2024, 1, 15⟩, 100⟩⟩
        ⟨⟨2024, 1, 15⟩, 200⟩ none (some ['n']) none).mood_rating = some 3 ∧
      (JournalEntry.update
        ⟨1, ['t'], ['c'], none, false, some 3, ⟨⟨2024, 1, 15⟩, 0⟩, ⟨⟨2024, 1, 15⟩, 100⟩⟩
        ⟨⟨2024, 1, 15⟩, 200⟩ none (some ['n']) none).updated_at = ⟨⟨2024, 1, 15⟩, 200⟩) := by
  have h := journal_entry_partial_update
    ⟨1, ['t'], ['c'], none, false, some 3, ⟨⟨2024, 1, 15⟩, 0⟩, ⟨⟨2024, 1, 15⟩, 100⟩⟩
    ⟨⟨2024, 1, 15⟩, 200⟩ none (some ['n']) none (by decide) (by decide) (by decide)
  exact ⟨⟨by decide, by decide, by decide⟩,
    by simpa using h.2.1, by simpa using h.2.2.1, by simpa using h.2.2.2.1,
    h.2.2.2.2.2.1⟩

/-! ## Journal session controller (`ui/journal_ui.py`, class `JournalWidget`)

The `journal_entries` table is a list of rows plus the next `AUTOINCREMENT`
id.  `JournalEntry.get_all` returns the rows ordered `created_at DESC`
(modelled with `insertionSort` over the chronological order). -/

/-- The whitespace set of Python `str.strip()` (all codepoints for which
`str.isspace()` holds): ASCII whitespace `\t \n \v \f \r`, the separators
`\x1c`-`\x1f`, space, NEL `\x85`, NBSP `\xa0`, and the Unicode space/line/
paragraph separators U+1680, U+2000-U+200A, U+2028, U+2029, U+202F, U+205F,
U+3000. -/
def isPyWhitespace (c : Char) : Bool :=
  decide ((0x09 ≤ c.toNat ∧ c.toNat ≤ 0x0D) ∨ (0x1C ≤ c.toNat ∧ c.toNat ≤ 0x1F) ∨
    c.toNat = 0x20 ∨ c.toNat = 0x85 ∨ c.toNat = 0xA0 ∨ c.toNat = 0x1680 ∨
    (0x2000 ≤ c.toNat ∧ c.toNat ≤ 0x200A) ∨ c.toNat = 0x2028 ∨ c.toNat = 0x2029 ∨
    c.toNat = 0x202F ∨ c.toNat = 0x205F ∨ c.toNat = 0x3000)

/-- Python `str.strip()`: drop whitespace from both ends. -/
def pyStrip (s : List Char) : List Char :=
  ((s.dropWhile isPyWhitespace).reverse.dropWhile isPyWhitespace).reverse

/-- Python substring test `needle in hay`. -/
def containsSub (needle : List Char) : List Char → Bool
  | [] => needle.isEmpty
  | c :: t => needle.isPrefixOf (c :: t) || containsSub needle t

structure JournalDB where
  rows : List JournalEntry
  next_id : Nat
  deriving DecidableEq

/-- `ORDER BY created_at DESC`: row `a` comes no later than row `b`. -/
def createdDesc (a b : JournalEntry) : Prop := dtLe b.created_at a.created_at

instance : DecidableRel createdDesc := fun a b => by
  unfold createdDesc; infer_instance

instance : IsTotal JournalEntry createdDesc :=
  ⟨fun a b => dtLe_total b.created_at a.created_at⟩

instance : IsTrans JournalEntry createdDesc :=
  ⟨fun _ _ _ hab hbc => dtLe_trans hbc hab⟩

/-- `JournalEntry.get_all`: every row, newest `created_at` first. -/
def JournalEntry.get_all (db : JournalDB) : List JournalEntry :=
  db.rows.insertionSort createdDesc

/-- `JournalWidget.get_entry_for_date`: the first entry of `get_all` whose
`created_at.date()` equals the requested date. -/
def get_entry_for_date (db : JournalDB) (entry_date : Date) : Option JournalEntry :=
  (JournalEntry.get_all db).find? (fun e => e.created_at.date == entry_date)

/-- `JournalWidget.update_existing_entry`:
`UPDATE journal_entries SET content = ?, updated_at = ? WHERE id = ?`. -/
def update_existing_entry (db : JournalDB) (entry : JournalEntry) (content : List Char)
    (now : DateTime) : JournalDB :=
  { db with rows := db.rows.map (fun r =>
      if r.id = entry.id then { r with content := content, updated_at := now } else r) }

/-- `strftime('%B')`. -/
def monthName : Nat → List Char
  | 1 => "January".data
  | 2 => "February".data
  | 3 => "March".data
  | 4 => "April".data
  | 5 => "May".data
  | 6 => "June".data
  | 7 => "July".data
  | 8 => "August".data
  | 9 => "September".data
  | 10 => "October".data
  | 11 => "November".data
  | 12 => "December".data
  | _ => []

/-- Decimal digits zero-padded to width 2 (`%m`, `%d`). -/
def pad2 (n : Nat) : List Char :=
  if n < 10 then '0' :: Nat.toDigits 10 n else Nat.toDigits 10 n

/-- Decimal digits zero-padded to width 4 (`%Y`). -/
def pad4 (n : Nat) : List Char :=
  if n < 10 then '0' :: '0' :: '0' :: Nat.toDigits 10 n
  else if n < 100 then '0' :: '0' :: Nat.toDigits 10 n
  else if n < 1000 then '0' :: Nat.toDigits 10 n
  else Nat.toDigits 10 n

/-- `f"Entry for {date.strftime('%B %d, %Y')}"`. -/
def entryTitleFor (d : Date) : List Char :=
  "Entry for ".data ++ monthName d.month ++ [' '] ++ pad2 d.day ++ ", ".data ++ pad4 d.year

/-- `date.strftime("%Y-%m-%d")`. -/
def dateStr (d : Date) : List Char :=
  pad4 d.year ++ ['-'] ++ pad2 d.month ++ ['-'] ++ pad2 d.day

/-- `JournalWidget.create_new_entry_record`: INSERT with `created_at` at
midnight of the selected date (`datetime.combine(date, time.min)`) and
`updated_at = datetime.now()`; `mood_rating` and `encrypted_content` stay
NULL and `is_encrypted` defaults to false. -/
def create_new_entry_record (db : JournalDB) (d : Date) (content : List Char)
    (now : DateTime) : JournalDB :=
  { rows := db.rows ++
      [⟨db.next_id, entryTitleFor d, content, none, false, none, ⟨d, 0⟩, now⟩],
    next_id := db.next_id + 1 }

/-- Outcome of `JournalWidget.save_entry`, as surfaced to the user:
silent return (not authenticated / no date selected), the
"Entry cannot be empty" feedback, or the success feedback. -/
inductive SaveResult
  | noop
  | emptyError
  | saved
  deriving DecidableEq

/-- `JournalWidget.save_entry`. -/
def save_entry (db : JournalDB) (is_authenticated : Bool) (current_entry_date : Option Date)
    (editor_text : List Char) (now : DateTime) : JournalDB × SaveResult :=
  match is_authenticated, current_entry_date with
  | false, _ => (db, .noop)
  | true, none => (db, .noop)
  | true, some d =>
    let content := pyStrip editor_text
    if content = [] then (db, .emptyError)
    else
      match get_entry_for_date db d with
      | some e => (update_existing_entry db e content now, .saved)
      | none => (create_new_entry_record db d content now, .saved)

/-- Number of stored entries whose `created_at` falls on date `d`. -/
def entriesOnDate (db : JournalDB) (d : Date) : Nat :=
  db.rows.countP (fun e => e.created_at.date == d)

/-- **C7.** When the editor content is empty after trimming, `save_entry`
reports the validation error and leaves the stored entries untouched
(it returns normally — the error is feedback, not an exception). -/
theorem save_empty_content_rejected (db : JournalDB) (d : Date)
    (text : List Char) (now : DateTime) (hempty : pyStrip text = []) :
    save_entry db true (some d) text now = (db, SaveResult.emptyError) := by
  unfold save_entry
  simp [hempty]

/-- Witness for C7: whitespace-only editor content (including a no-break
space, which Python's `strip()` removes). -/
theorem save_empty_content_rejected_witness :
    pyStrip [' ', '\xA0', '\n'] = [] ∧
    save_entry ⟨[], 1⟩ true (some ⟨2024, 1, 15⟩) [' ', '\xA0', '\n'] ⟨⟨2024, 1, 15⟩, 50⟩ =
      (⟨[], 1⟩, SaveResult.emptyError) :=
  ⟨by decide, save_empty_content_rejected ⟨[], 1⟩ ⟨2024, 1, 15⟩ [' ', '\xA0', '\n']
    ⟨⟨2024, 1, 15⟩, 50⟩ (by decide)⟩

theorem find?_eq_of_mem_unique {α : Type} (p : α → Bool) {l : List α} {a : α}
    (ha : a ∈ l) (hpa : p a = true)
    (huniq : ∀ x ∈ l, p x = true → x = a) : l.find? p = some a := by
  induction l with
  | nil => cases ha
  | cons b bs ih =>
    by_cases hb : p b = true
    · have hba : b = a := huniq b (List.mem_cons_self b bs) hb
      rw [List.find?_cons_of_pos _ hb, hba]
    · have hab : a ∈ bs := by
        rcases List.mem_cons.mp ha with h | h
        · rw [← h] at hb
          exact absurd hpa hb
        · exact h
      rw [List.find?_cons_of_neg _ (by simpa using hb)]
      exact ih hab (fun x hx hpx => huniq x (List.mem_cons_of_mem _ hx) hpx)

/-- **C6.** Starting from a store with no entry on date `d`, saving content
for `d` and then saving again for the same `d` updates the row the first save
inserted instead of inserting a second one: both saves succeed, exactly one
stored entry has `created_at` on `d`, and that entry carries the second
content. -/
theorem save_twice_same_date_single_row (db : JournalDB) (d : Date)
    (text1 text2 : List Char) (t1 t2 : DateTime)
    (hnone : entriesOnDate db d = 0)
    (h1 : pyStrip text1 ≠ []) (h2 : pyStrip text2 ≠ []) :
    (save_entry db true (some d) text1 t1).2 = SaveResult.saved ∧
    (save_entry (save_entry db true (some d) text1 t1).1 true (some d) text2 t2).2 =
      SaveResult.saved ∧
    entriesOnDate
      (save_entry (save_entry db true (some d) text1 t1).1 true (some d) text2 t2).1 d = 1 ∧
    ∃ e ∈ (save_entry (save_entry db true (some d) text1 t1).1 true (some d) text2 t2).1.rows,
      e.created_at.date = d ∧ e.content = pyStrip text2 := by
  have hnomatch : ∀ e ∈ db.rows, ¬ (e.created_at.date == d) = true := by
    simpa [entriesOnDate] using List.countP_eq_zero.mp hnone
  have hfind1 : get_entry_for_date db d = none := by
    unfold get_entry_for_date
    rw [List.find?_eq_none]
    intro x hx
    exact hnomatch x ((List.perm_insertionSort createdDesc db.rows).mem_iff.mp hx)
  have hsave1 : save_entry db true (some d) text1 t1 =
      (create_new_entry_record db d (pyStrip text1) t1, SaveResult.saved) := by
    unfold save_entry
    simp [h1, hfind1]
  set e1 : JournalEntry :=
    ⟨db.next_id, entryTitleFor d, pyStrip text1, none, false, none, ⟨d, 0⟩, t1⟩ with he1
  have hcreate : create_new_entry_record db d (pyStrip text1) t1 =
      ⟨db.rows ++ [e1], db.next_id + 1⟩ := rfl
  have he1mem : e1 ∈ db.rows ++ [e1] := by simp
  have he1p : (e1.created_at.date == d) = true := by
    simp [he1]
  have huniq : ∀ x ∈ db.rows ++ [e1], (x.created_at.date == d) = true → x = e1 := by
    intro x hx hpx
    rcases List.mem_append.mp hx with hx2 | hx2
    · exact absurd hpx (hnomatch x hx2)
    · simpa using hx2
  have hfind2 : get_entry_for_date ⟨db.rows ++ [e1], db.next_id + 1⟩ d = some e1 := by
    unfold get_entry_for_date JournalEntry.get_all
    apply find?_eq_of_mem_unique
    · exact (List.perm_insertionSort createdDesc _).mem_iff.mpr he1mem
    · exact he1p
    · intro x hx hpx
      exact huniq x ((List.perm_insertionSort createdDesc _).mem_iff.mp hx) hpx
  have hsave2 : save_entry ⟨db.rows ++ [e1], db.next_id + 1⟩ true (some d) text2 t2 =
      (update_existing_entry ⟨db.rows ++ [e1], db.next_id + 1⟩ e1 (pyStrip text2) t2,
        SaveResult.saved) := by
    unfold save_entry
    simp [h2, hfind2]
  refine ⟨?_, ?_, ?_, ?_⟩
  · rw [hsave1]
  · simp only [hsave1, hcreate, hsave2]
  · simp only [hsave1, hcreate, hsave2]
    unfold entriesOnDate update_existing_entry
    simp only [List.countP_map]
    have hpt : ∀ x ∈ db.rows ++ [e1],
        ((fun e => e.created_at.date == d) ∘ (fun r =>
          if r.id = db.next_id then { r with content := pyStrip text2, updated_at := t2 }
          else r)) x = true ↔ (fun e => e.created_at.date == d) x = true := by
      intro x _
      by_cases hid : x.id = db.next_id <;> simp [hid]
    rw [List.countP_congr hpt]
    have : db.rows.countP (fun e => e.created_at.date == d) = 0 := by
      simpa [entriesOnDate] using hnone
    simp [this, he1p]
  · refine ⟨{ e1 with content := pyStrip text2, updated_at := t2 }, ?_, rfl, rfl⟩
    simp only [hsave1, hcreate, hsave2]
    unfold update_existing_entry
    have : { e1 with content := pyStrip text2, updated_at := t2 } =
        (fun r => if r.id = e1.id then { r with content := pyStrip text2, updated_at := t2 }
          else r) e1 := by
      simp
    rw [this]
    exact List.mem_map_of_mem _ he1mem

/-- Witness for C6: empty store, two saves on 2024-01-15. -/
theorem save_twice_same_date_single_row_witness :
    (entriesOnDate ⟨[], 1⟩ ⟨2024, 1, 15⟩ = 0 ∧
      pyStrip ['a'] ≠ [] ∧ pyStrip ['b'] ≠ []) ∧
    ((save_entry ⟨[], 1⟩ true (some ⟨2024, 1, 15⟩) ['a'] ⟨⟨2024, 1, 15⟩, 10⟩).2 =
        SaveResult.saved ∧
      (save_entry (save_entry ⟨[], 1⟩ true (some ⟨2024, 1, 15⟩) ['a'] ⟨⟨2024, 1, 15⟩, 10⟩).1
        true (some ⟨2024, 1, 15⟩) ['b'] ⟨⟨2024, 1, 15⟩, 20⟩).2 = SaveResult.saved ∧
      entriesOnDate
        (save_entry (save_entry ⟨[], 1⟩ true (some ⟨2024, 1, 15⟩) ['a'] ⟨⟨2024, 1, 15⟩, 10⟩).1
          true (some ⟨2024, 1, 15⟩) ['b'] ⟨⟨2024, 1, 15⟩, 20⟩).1 ⟨2024, 1, 15⟩ = 1 ∧
      ∃ e ∈ (save_entry
          (save_entry ⟨[], 1⟩ true (some ⟨2024, 1, 15⟩) ['a'] ⟨⟨2024, 1, 15⟩, 10⟩).1
          true (some ⟨2024, 1, 15⟩) ['b'] ⟨⟨2024, 1, 15⟩, 20⟩).1.rows,
        e.created_at.date = ⟨2024, 1, 15⟩ ∧ e.content = pyStrip ['b']) :=
  ⟨⟨by decide, by decide, by decide⟩,
    save_twice_same_date_single_row ⟨[], 1⟩ ⟨2024, 1, 15⟩ ['a'] ['b']
      ⟨⟨2024, 1, 15⟩, 10⟩ ⟨⟨2024, 1, 15⟩, 20⟩ (by decide) (by decide) (by decide)⟩

/-! ## Search over journal entries (`JournalWidget.load_entries` /
`filter_entries_by_search`) -/

/-- The text `filter_entries_by_search` matches the query against: the
decrypted content for encrypted entries (empty on decryption failure), the
plain `content` otherwise.  The entry `title` is never consulted. -/
def searchContent (e : JournalEntry) : List Char :=
  if e.is_encrypted = true ∧ e.encrypted_content.getD [] ≠ [] then
    match decrypt_with_master_key (e.encrypted_content.getD []) with
    | some cps => cps.map Char.ofNat
    | none => []
  else e.content

/-! Python `str.lower()` is kept abstract, like `hash_password`: the search
model is parameterized by `lower : List Char → List Char`, applied — exactly
as the source applies `.lower()` — to the query and to the search content
(never to the date string or the title).  The claims below hold for every
such function, hence for Python's full Unicode lowercasing in particular. -/

/-- `JournalWidget.filter_entries_by_search`: keep entries whose
`created_at` date string contains the query (case-sensitive) or whose
lowered search content contains the lowered query. -/
def filter_entries_by_search (lower : List Char → List Char)
    (entries : List JournalEntry) (query : List Char) : List JournalEntry :=
  if query = [] then entries
  else entries.filter (fun e =>
    containsSub query (dateStr e.created_at.date) ||
    containsSub (lower query) (lower (searchContent e)))

/-- `JournalWidget.load_entries`: nothing when not authenticated; with an
active search query the filtered entries (no limit); otherwise the first 10
of `get_all`. -/
def load_entries (lower : List Char → List Char) (db : JournalDB)
    (is_authenticated : Bool) (search_query : List Char) : List JournalEntry :=
  if is_authenticated = false then []
  else
    let entries := JournalEntry.get_all db
    let entries2 :=
      if search_query ≠ [] then filter_entries_by_search lower entries search_query
      else entries
    if search_query = [] then entries2.take 10 else entries2

/-- **C9 counterexample.** The search does not look at titles: an entry whose
title contains the query `"q"` — while its content and date string do not —
is not returned, contradicting the claimed "content or title" matching.
`lower` is instantiated at the identity, which coincides with Python's
`str.lower()` on every string it is applied to here (`"q"` and `"c"` are
already lowercase). -/
theorem search_ignores_title_counterexample :
    containsSub ['q']
      (JournalEntry.title ⟨1, ['q'], ['c'], none, false, some 3,
        ⟨⟨2024, 1, 15⟩, 0⟩, ⟨⟨2024, 1, 15⟩, 0⟩⟩) = true ∧
    (fun s => s) (['q'] : List Char) = ['q'] ∧
    (fun s => s) (['c'] : List Char) = ['c'] ∧
    load_entries (fun s => s)
      ⟨[⟨1, ['q'], ['c'], none, false, some 3, ⟨⟨2024, 1, 15⟩, 0⟩, ⟨⟨2024, 1, 15⟩, 0⟩⟩], 2⟩
      true ['q'] = [] := by
  refine ⟨by decide, rfl, rfl, ?_⟩
  decide

/-- **C9 (amended).** With an empty query `load_entries` shows the first 10
entries of the `created_at`-descending ordering of the store (the most recent
10); with a non-empty query it returns exactly the stored entries whose date
string contains the query or whose lowered content (after decryption)
contains the lowered query, with no limit — for every lowercasing function
`lower`, hence for Python's `str.lower()`.  The title is not consulted (the
claim's "or title" part is refuted by the counterexample). -/
theorem load_entries_search_spec (lower : List Char → List Char) (db : JournalDB)
    (q : List Char) (hq : q ≠ []) :
    load_entries lower db true [] = (JournalEntry.get_all db).take 10 ∧
    List.Sorted createdDesc (JournalEntry.get_all db) ∧
    List.Perm (JournalEntry.get_all db) db.rows ∧
    (∀ e, e ∈ load_entries lower db true q ↔ e ∈ db.rows ∧
      (containsSub q (dateStr e.created_at.date) ||
        containsSub (lower q) (lower (searchContent e))) = true) := by
  refine ⟨?_, ?_, ?_, ?_⟩
  · unfold load_entries
    simp
  · exact List.sorted_insertionSort createdDesc db.rows
  · exact List.perm_insertionSort createdDesc db.rows
  · intro e
    unfold load_entries filter_entries_by_search
    simp only [hq, if_false, if_true, ne_eq, not_false_iff, Bool.false_eq_true]
    rw [if_neg (by simp), List.mem_filter]
    constructor
    · rintro ⟨hmem, hp⟩
      exact ⟨(List.perm_insertionSort createdDesc db.rows).mem_iff.mp hmem, hp⟩
    · rintro ⟨hmem, hp⟩
      exact ⟨(List.perm_insertionSort createdDesc db.rows).mem_iff.mpr hmem, hp⟩

/-- Witness for the amended C9: one-entry store, query `"c"` matching the
content, `lower` instantiated at the identity. -/
theorem load_entries_search_spec_witness :
    (['c'] : List Char) ≠ [] ∧
    (load_entries (fun s => s) ⟨[⟨1, ['q'], ['c'], none, false, some 3,
        ⟨⟨2024, 1, 15⟩, 0⟩, ⟨⟨2024, 1, 15⟩, 0⟩⟩], 2⟩ true [] =
      (JournalEntry.get_all ⟨[⟨1, ['q'], ['c'], none, false, some 3,
        ⟨⟨2024, 1, 15⟩, 0⟩, ⟨⟨2024, 1, 15⟩, 0⟩⟩], 2⟩).take 10 ∧
    List.Sorted createdDesc (JournalEntry.get_all ⟨[⟨1, ['q'], ['c'], none, false, some 3,
        ⟨⟨2024, 1, 15⟩, 0⟩, ⟨⟨2024, 1, 15⟩, 0⟩⟩], 2⟩) ∧
    List.Perm (JournalEntry.get_all ⟨[⟨1, ['q'], ['c'], none, false, some 3,
        ⟨⟨2024, 1, 15⟩, 0⟩, ⟨⟨2024, 1, 15⟩, 0⟩⟩], 2⟩)
      (JournalDB.mk [⟨1, ['q'], ['c'], none, false, some 3,
        ⟨⟨2024, 1, 15⟩, 0⟩, ⟨⟨2024, 1, 15⟩, 0⟩⟩] 2).rows ∧
    (∀ e, e ∈ load_entries (fun s => s) ⟨[⟨1, ['q'], ['c'], none, false, some 3,
        ⟨⟨2024, 1, 15⟩, 0⟩, ⟨⟨2024, 1, 15⟩, 0⟩⟩], 2⟩ true ['c'] ↔
      e ∈ (JournalDB.mk [⟨1, ['q'], ['c'], none, false, some 3,
        ⟨⟨2024, 1, 15⟩, 0⟩, ⟨⟨2024, 1, 15⟩, 0⟩⟩] 2).rows ∧
      (containsSub ['c'] (dateStr e.created_at.date) ||
        containsSub ((fun s => s) (['c'] : List Char))
          ((fun s => s) (searchContent e))) = true)) :=
  ⟨by decide,
    load_entries_search_spec (fun s => s) ⟨[⟨1, ['q'], ['c'], none, false, some 3,
      ⟨⟨2024, 1, 15⟩, 0⟩, ⟨⟨2024, 1, 15⟩, 0⟩⟩], 2⟩ ['c'] (by decide)⟩

end Origami
